import Mathlib

/-!
Verification development for the bodhi focus-mode assistant.

Shallow embedding of the core logic:
- the urgency classifier `classifyMessage` (src/lib/claude.ts / supabase.ts),
- the duration parser and formatter `parseDuration` / `formatDuration`,
- the focus-session store operations `getActiveFocusSession`,
  `endFocusSession`, `startFocusSession` (src/lib/focus.ts),
- the slash-command handler branch `handleFocusOn` (app route),
- the batch summary composer `sendBatchSummary`.

Timestamps are modelled as natural numbers (milliseconds). The external
database is modelled as an explicit `Store` value; database-generated row
ids are passed in as parameters; read and write failures of the external
store and of the classification oracle are modelled as explicit boolean
or sum-type parameters, since the TypeScript code observes them only as
caught errors or null data.
-/

/-- Urgency levels of the classifier, from the `UrgencyLevel` union type. -/
inductive Urgency
  | low
  | medium
  | high
  | urgent
deriving DecidableEq, Repr

/-- The `ClassificationResult` interface: urgency, free-text reason, and
the interrupt flag. -/
structure ClassificationResult where
  urgency : Urgency
  reason : String
  shouldInterrupt : Bool
deriving DecidableEq, Repr

/-- Outcome of the external oracle call made inside the `try` block of
`classifyMessage`. `thrown` models the API call throwing (timeout etc.),
`nonText` models a content block whose type field is not text (which the
code turns into a throw), `badJson` models `JSON.parse` throwing, and
`success` models a response that parsed into the expected shape. -/
inductive OracleOutcome
  | thrown (e : String)
  | nonText
  | badJson (raw : String)
  | success (r : ClassificationResult)
deriving DecidableEq, Repr

/-- True on the three outcomes that end in the `catch` branch. -/
def OracleOutcome.isFailure : OracleOutcome → Bool
  | .thrown _ => true
  | .nonText => true
  | .badJson _ => true
  | .success _ => false

/-- The fixed keyword list from `classifyMessage`. -/
def urgentKeywords : List String :=
  ["urgent", "emergency", "asap", "down", "outage", "critical",
   "immediately", "911", "help now"]

/-- Lowercase a string into its character list, modelling
`messageText.toLowerCase()`. -/
def lowerStr (s : String) : List Char := s.data.map Char.toLower

/-- Whether `pat` is a leading segment of `l` (character by character). -/
def leadsWith : List Char → List Char → Bool
  | [], _ => true
  | _ :: _, [] => false
  | a :: as, b :: bs => a == b && leadsWith as bs

/-- Substring containment, modelling JavaScript `String.includes`. -/
def containsSub (needle : List Char) : List Char → Bool
  | [] => needle.isEmpty
  | c :: cs => leadsWith needle (c :: cs) || containsSub needle cs

/-- The keyword scan: `urgentKeywords.some(k => lowerMessage.includes(k))`. -/
def hasUrgentKeyword (messageText : String) : Bool :=
  urgentKeywords.any (fun k => containsSub k.data (lowerStr messageText))

/-- Model of `classifyMessage` from src/lib/claude.ts, as a function of the message
text, whether `ANTHROPIC_API_KEY` is configured, and the oracle outcome.
The channel and sender names only enter the prompt text, which is
transport, so they are omitted. On `success r` the code executes
the assignment recomputing shouldInterrupt from the urgency field just
before returning. -/
def classifyMessage (messageText : String) (keyConfigured : Bool)
    (oracle : OracleOutcome) : ClassificationResult :=
  let hasKw := hasUrgentKeyword messageText
  if keyConfigured = false then
    if hasKw then
      ⟨Urgency.urgent, "Contains urgent keywords", true⟩
    else
      ⟨Urgency.low, "Default classification (no AI key configured)", false⟩
  else
    match oracle with
    | .success r => { r with shouldInterrupt := decide (r.urgency = Urgency.urgent) }
    | _ =>
      if hasKw then
        ⟨Urgency.urgent, "Contains urgent keywords (AI classification failed)", true⟩
      else
        ⟨Urgency.medium, "Default classification (AI classification failed)", false⟩

/-- Split a character list into its longest leading run of ASCII digits
and the remainder, the way the greedy `\d+` of the duration regex
consumes digits. -/
def splitDigits : List Char → List Char × List Char
  | [] => ([], [])
  | c :: cs =>
    if c.isDigit then
      let p := splitDigits cs
      (c :: p.1, p.2)
    else ([], c :: cs)

/-- The number denoted by a base-10 digit string, modelling
`parseInt(str, 10)` on an all-digit string (and `parseInt('0')` on the
empty default). -/
def digitsToNat (l : List Char) : Nat :=
  l.foldl (fun acc c => acc * 10 + (c.toNat - 48)) 0

/-- One optional regex group `(?:(\d+)u)?` for a unit letter `u`: if the
input starts with a nonempty digit run immediately followed by `u`,
consume it and return the digits; otherwise leave the input unchanged.
This is equivalent to the regex group because `\d+` is greedy and `u` is
not a digit, so no backtracking inside the run can succeed. -/
def matchUnit (u : Char) (cs : List Char) : Option (List Char) × List Char :=
  match splitDigits cs with
  | (d :: ds, c :: r) => if c = u then (some (d :: ds), r) else (none, cs)
  | _ => (none, cs)

/-- The matcher for the full anchored regex on an already lowercased
character list — optional digits-h group, optional digits-m group,
end of input — returning the millisecond total
`(hours * 60 + minutes) * 60 * 1000` exactly as `parseDuration` computes
it, or `none` when the regex does not match or both groups are absent. -/
def parseChars (cs : List Char) : Option Nat :=
  let hm := matchUnit 'h' cs
  let mm := matchUnit 'm' hm.2
  if mm.2 = [] ∧ (hm.1 ≠ none ∨ mm.1 ≠ none) then
    some ((digitsToNat (hm.1.getD []) * 60 + digitsToNat (mm.1.getD [])) * 60 * 1000)
  else none

/-- Model of `parseDuration` from src/lib/focus.ts: lowercase the input and match
the anchored optional-hours optional-minutes pattern. -/
def parseDuration (s : String) : Option Nat :=
  parseChars (lowerStr s)

/-- Model of `formatDuration` from src/lib/focus.ts. -/
def formatDuration (ms : Nat) : String :=
  let minutes := ms / 60000
  let hours := minutes / 60
  let remainingMinutes := minutes % 60
  if 0 < hours ∧ 0 < remainingMinutes then
    toString hours ++ "h " ++ toString remainingMinutes ++ "m"
  else if 0 < hours then toString hours ++ "h"
  else toString minutes ++ "m"

theorem splitDigits_append (cs : List Char) :
    (splitDigits cs).1 ++ (splitDigits cs).2 = cs := by
  induction cs with
  | nil => rfl
  | cons c cs ih =>
    by_cases h : c.isDigit
    · simp only [splitDigits, h, if_pos, List.cons_append]
      exact congrArg (c :: ·) ih
    · simp [splitDigits, h]

theorem splitDigits_digits (cs : List Char) :
    ∀ c ∈ (splitDigits cs).1, c.isDigit = true := by
  induction cs with
  | nil => intro c hc; simp [splitDigits] at hc
  | cons a cs ih =>
    intro c hc
    by_cases h : a.isDigit
    · simp only [splitDigits, h, if_pos] at hc
      rcases List.mem_cons.mp hc with rfl | hc
      · exact h
      · exact ih c hc
    · simp [splitDigits, h] at hc

theorem splitDigits_stop (l : List Char) (c : Char) (r : List Char)
    (hl : ∀ x ∈ l, x.isDigit = true) (hc : c.isDigit = false) :
    splitDigits (l ++ c :: r) = (l, c :: r) := by
  induction l with
  | nil => simp [splitDigits, hc]
  | cons a l ih =>
    have ha : a.isDigit = true := hl a (List.mem_cons_self a l)
    have hl' : ∀ x ∈ l, x.isDigit = true := fun x hx => hl x (List.mem_cons_of_mem a hx)
    simp [splitDigits, ha, ih hl']

theorem matchUnit_found (u : Char) (l r : List Char)
    (hne : l ≠ []) (hl : ∀ x ∈ l, x.isDigit = true) (hu : u.isDigit = false) :
    matchUnit u (l ++ u :: r) = (some l, r) := by
  unfold matchUnit
  rw [splitDigits_stop l u r hl hu]
  cases l with
  | nil => exact absurd rfl hne
  | cons d ds => simp

theorem matchUnit_cases (u : Char) (cs : List Char) :
    matchUnit u cs = (none, cs) ∨
    ∃ l r, matchUnit u cs = (some l, r) ∧ l ≠ [] ∧
      (∀ x ∈ l, x.isDigit = true) ∧ cs = l ++ u :: r := by
  unfold matchUnit
  have happ := splitDigits_append cs
  have hdig := splitDigits_digits cs
  rcases hsp : splitDigits cs with ⟨a, b⟩
  rw [hsp] at happ hdig
  cases a with
  | nil => left; rfl
  | cons d ds =>
    cases b with
    | nil => left; rfl
    | cons c r =>
      by_cases hc : c = u
      · right
        refine ⟨d :: ds, r, by simp [hc], by simp, hdig, ?_⟩
        subst hc
        exact happ.symm
      · left; simp [hc]

/-- An optional group content is admissible when absent, or a nonempty
all-digit string when present. -/
def digitPart : Option (List Char) → Bool
  | none => true
  | some l => !l.isEmpty && l.all (fun c => c.isDigit)

/-- Render an optional group back as text: the digits followed by the
unit letter, or nothing when absent. -/
def optPart : Option (List Char) → Char → List Char
  | none, _ => []
  | some l, u => l ++ [u]

/-- The integer an optional group denotes, with absent groups defaulting
to zero as in `parseInt(group or zero, 10)`. -/
def optVal : Option (List Char) → Nat
  | none => 0
  | some l => digitsToNat l

/-- Stated from the claim wording: the lowercased input decomposes into
an optional integer-followed-by-h part and an optional
integer-followed-by-m part, at least one present, with no character
beyond them. -/
def durationDecomp (s : String) (hd md : Option (List Char)) : Prop :=
  digitPart hd = true ∧ digitPart md = true ∧ (hd ≠ none ∨ md ≠ none) ∧
  lowerStr s = optPart hd 'h' ++ optPart md 'm'

theorem digitPart_some {l : List Char} (h : digitPart (some l) = true) :
    l ≠ [] ∧ ∀ x ∈ l, x.isDigit = true := by
  simp only [digitPart, Bool.and_eq_true, Bool.not_eq_true', List.isEmpty_eq_false_iff_exists_mem,
    List.all_eq_true] at h
  rcases h with ⟨⟨x, hx⟩, hall⟩
  exact ⟨fun hnil => by simp [hnil] at hx, fun c hc => by simpa using hall c hc⟩

theorem digitPart_of {l : List Char} (hne : l ≠ []) (hd : ∀ x ∈ l, x.isDigit = true) :
    digitPart (some l) = true := by
  cases l with
  | nil => exact absurd rfl hne
  | cons a t =>
    simp only [digitPart, List.isEmpty_cons, Bool.not_false, Bool.true_and, List.all_eq_true]
    exact fun c hc => hd c hc

theorem digitsToNat_nil : digitsToNat [] = 0 := rfl

theorem parseChars_complete (hd md : Option (List Char))
    (hh : digitPart hd = true) (hm : digitPart md = true)
    (hne : hd ≠ none ∨ md ≠ none) :
    parseChars (optPart hd 'h' ++ optPart md 'm')
      = some ((optVal hd * 60 + optVal md) * 60 * 1000) := by
  cases hd with
  | none =>
    cases md with
    | none => simp at hne
    | some M =>
      obtain ⟨hMne, hMd⟩ := digitPart_some hm
      have h2 : matchUnit 'm' (M ++ ['m']) = (some M, []) :=
        matchUnit_found 'm' M [] hMne hMd (by decide)
      have h1 : matchUnit 'h' (M ++ ['m']) = (none, M ++ ['m']) := by
        unfold matchUnit
        rw [splitDigits_stop M 'm' [] hMd (by decide)]
        cases M with
        | nil => rfl
        | cons d ds => simp
      simp only [optPart, List.nil_append]
      simp [parseChars, h1, h2, optVal, digitsToNat_nil]
  | some H =>
    obtain ⟨hHne, hHd⟩ := digitPart_some hh
    cases md with
    | none =>
      have h1 : matchUnit 'h' (H ++ ['h']) = (some H, []) :=
        matchUnit_found 'h' H [] hHne hHd (by decide)
      have h2 : matchUnit 'm' ([] : List Char) = (none, []) := by rfl
      simp only [optPart, List.append_nil]
      simp [parseChars, h1, h2, optVal, digitsToNat_nil]
    | some M =>
      obtain ⟨hMne, hMd⟩ := digitPart_some hm
      have h1 : matchUnit 'h' (H ++ 'h' :: (M ++ ['m'])) = (some H, M ++ ['m']) :=
        matchUnit_found 'h' H (M ++ ['m']) hHne hHd (by decide)
      have h2 : matchUnit 'm' (M ++ ['m']) = (some M, []) :=
        matchUnit_found 'm' M [] hMne hMd (by decide)
      simp only [optPart, List.append_assoc, List.cons_append, List.nil_append]
      simp [parseChars, h1, h2, optVal]

theorem parseChars_sound (cs : List Char) (v : Nat)
    (h : parseChars cs = some v) :
    ∃ hd md, digitPart hd = true ∧ digitPart md = true ∧ (hd ≠ none ∨ md ≠ none) ∧
      cs = optPart hd 'h' ++ optPart md 'm' ∧
      v = (optVal hd * 60 + optVal md) * 60 * 1000 := by
  rcases matchUnit_cases 'h' cs with h1 | ⟨H, r1, h1, hHne, hHd, hcs⟩
  · rcases matchUnit_cases 'm' cs with h2 | ⟨M, r2, h2, hMne, hMd, hcs⟩
    · simp only [parseChars, h1, h2] at h
      simp at h
    · simp only [parseChars, h1, h2] at h
      by_cases hr2 : r2 = []
      · subst hr2
        simp only [ne_eq, not_true_eq_false, Option.some.injEq, reduceIte, and_true,
          Option.getD_some, Option.getD_none, if_pos] at h
        simp at h
        refine ⟨none, some M, rfl, digitPart_of hMne hMd, by simp, by
          simpa [optPart] using hcs, ?_⟩
        simp only [digitsToNat_nil] at h
        simp only [optVal, digitsToNat_nil]
        omega
      · simp [hr2] at h
  · rcases matchUnit_cases 'm' r1 with h2 | ⟨M, r2, h2, hMne, hMd, hr1⟩
    · simp only [parseChars, h1, h2] at h
      by_cases hr1 : r1 = []
      · subst hr1
        simp at h
        refine ⟨some H, none, digitPart_of hHne hHd, rfl, by simp, by
          simpa [optPart] using hcs, ?_⟩
        simp only [digitsToNat_nil] at h
        simp only [optVal, digitsToNat_nil]
        omega
      · simp [hr1] at h
    · simp only [parseChars, h1, h2] at h
      by_cases hr2 : r2 = []
      · subst hr2
        simp at h
        refine ⟨some H, some M, digitPart_of hHne hHd, digitPart_of hMne hMd, by simp, ?_, ?_⟩
        · rw [hcs, hr1]
          simp [optPart]
        · simp only [optVal]
          omega
      · simp [hr2] at h

theorem parseDuration_some_iff (s : String) (v : Nat) :
    parseDuration s = some v ↔
      ∃ hd md, durationDecomp s hd md ∧
        v = (optVal hd * 60 + optVal md) * 60 * 1000 := by
  constructor
  · intro h
    obtain ⟨hd, md, hh, hm, hne, heq, hv⟩ := parseChars_sound (lowerStr s) v h
    exact ⟨hd, md, ⟨hh, hm, hne, heq⟩, hv⟩
  · rintro ⟨hd, md, ⟨hh, hm, hne, heq⟩, hv⟩
    unfold parseDuration
    rw [heq, parseChars_complete hd md hh hm hne, hv]

/-- Stated from the spec: the normalized rendering of a whole number of
minutes — hours part and minutes part when both nonzero, hours alone,
else minutes alone (including zero). -/
def renderMinutes (totalMinutes : Nat) : String :=
  let hours := totalMinutes / 60
  let m := totalMinutes % 60
  if 0 < hours ∧ 0 < m then toString hours ++ "h " ++ toString m ++ "m"
  else if 0 < hours then toString hours ++ "h"
  else toString m ++ "m"

theorem formatDuration_renderMinutes (ms : Nat) :
    formatDuration ms = renderMinutes (ms / 60000) := by
  unfold formatDuration renderMinutes
  by_cases h1 : 0 < ms / 60000 / 60
  · by_cases h2 : 0 < ms / 60000 % 60 <;> simp [h1, h2]
  · have hlt : ms / 60000 < 60 := by omega
    have hmod : ms / 60000 % 60 = ms / 60000 := Nat.mod_eq_of_lt hlt
    simp [h1, hmod]

/-- C5: `parseDuration` fails exactly on the strings with no admissible
decomposition of the lowercased input into an optional integer-h part and
an optional integer-m part with at least one present and no extra
character; on every admissible decomposition it returns
(hours * 60 + minutes) * 60000 milliseconds. -/
theorem parseDuration_spec (s : String) :
    (parseDuration s = none ↔ ¬ ∃ hd md, durationDecomp s hd md) ∧
    (∀ hd md, durationDecomp s hd md →
      parseDuration s = some ((optVal hd * 60 + optVal md) * 60000)) := by
  have complete : ∀ hd md, durationDecomp s hd md →
      parseDuration s = some ((optVal hd * 60 + optVal md) * 60000) := by
    rintro hd md ⟨hh, hm, hne, heq⟩
    unfold parseDuration
    rw [heq, parseChars_complete hd md hh hm hne]
    have harith : (optVal hd * 60 + optVal md) * 60 * 1000
        = (optVal hd * 60 + optVal md) * 60000 := by omega
    rw [harith]
  refine ⟨⟨?_, ?_⟩, complete⟩
  · intro hnone hex
    obtain ⟨hd, md, hdec⟩ := hex
    rw [complete hd md hdec] at hnone
    exact Option.noConfusion hnone
  · intro hnex
    cases hv : parseDuration s with
    | none => rfl
    | some v =>
      obtain ⟨hd, md, hh, hm, hne, heq, _⟩ := parseChars_sound (lowerStr s) v hv
      exact absurd ⟨hd, md, hh, hm, hne, heq⟩ hnex

/-- C5 witness: "2h30m" decomposes as hours "2" and minutes "30" and
parses to 9000000 ms. -/
theorem parseDuration_spec_witness :
    durationDecomp "2h30m" (some ['2']) (some ['3', '0']) ∧
    parseDuration "2h30m" = some 9000000 := by
  have hdec : durationDecomp "2h30m" (some ['2']) (some ['3', '0']) := by
    unfold durationDecomp
    decide
  have h := (parseDuration_spec "2h30m").2 (some ['2']) (some ['3', '0']) hdec
  have hval : (optVal (some ['2']) * 60 + optVal (some ['3', '0'])) * 60000 = 9000000 := by
    decide
  exact ⟨hdec, by rw [h, hval]⟩

/-- C6: a parse success is always a whole number of minutes, and
formatting it renders exactly the spec-side normalization of that minute
total; the listed malformed strings all fail to parse. -/
theorem parseDuration_formatDuration_roundTrip :
    (∀ s v, parseDuration s = some v →
      (v / 60000) * 60000 = v ∧ formatDuration v = renderMinutes (v / 60000)) ∧
    parseDuration "1h30m" = some 5400000 ∧ formatDuration 5400000 = "1h 30m" ∧
    parseDuration "" = none ∧ parseDuration "2x" = none ∧
    parseDuration "h" = none ∧ parseDuration "30" = none := by
  refine ⟨?_, by decide, by decide, by decide, by decide, by decide, by decide⟩
  intro s v hv
  obtain ⟨hd, md, _, _, _, _, hval⟩ := parseChars_sound (lowerStr s) v hv
  constructor
  · have hdvd : 60000 ∣ v := by
      rw [hval]
      exact ⟨optVal hd * 60 + optVal md, by omega⟩
    exact Nat.div_mul_cancel hdvd
  · exact formatDuration_renderMinutes v

/-- C6 witness: the round trip at "1h30m". -/
theorem parseDuration_formatDuration_roundTrip_witness :
    5400000 / 60000 * 60000 = 5400000 ∧ formatDuration 5400000 = renderMinutes 90 :=
  ⟨(parseDuration_formatDuration_roundTrip.1 "1h30m" 5400000 (by decide)).1,
   (parseDuration_formatDuration_roundTrip.1 "1h30m" 5400000 (by decide)).2⟩

/-- A row of the focus_sessions table (`FocusSession` interface, without
the transport-only created_at column). Timestamps are milliseconds. -/
structure SessionRow where
  id : Nat
  user_id : String
  started_at : Nat
  ends_at : Nat
  is_active : Bool
deriving DecidableEq, Repr

/-- A row of the held_items table (`HeldItem` interface, without the
transport-only columns this development never reads). -/
structure HeldRow where
  id : Nat
  session_id : Nat
  channel_id : String
  channel_name : String
  sender_id : String
  sender_name : String
  message_text : String
  urgency : Urgency
  received_at : Nat
deriving DecidableEq, Repr

/-- The external datastore: the two tables the session manager touches. -/
structure Store where
  sessions : List SessionRow
  held : List HeldRow
deriving DecidableEq, Repr

/-- The row filter of `getActiveFocusSession`: same user, is_active,
ends_at strictly in the future. -/
def activeMatch (now : Nat) (userId : String) (r : SessionRow) : Bool :=
  r.user_id == userId && r.is_active && decide (now < r.ends_at)

/-- The `order by started_at descending, limit 1` step: the row with the
greatest started_at, later rows winning ties (the database leaves tie
order unspecified; this is one refinement of it). -/
def latestStarted : List SessionRow → Option SessionRow :=
  List.foldl (fun acc r =>
    match acc with
    | none => some r
    | some a => if a.started_at ≤ r.started_at then some r else some a) none

/-- Model of `getActiveFocusSession` from src/lib/focus.ts: most recent active
unexpired session of the user, or none — also on any query failure, which
the code folds into the same null result. -/
def getActiveFocusSession (now : Nat) (userId : String) (store : Store) :
    Option SessionRow :=
  latestStarted (store.sessions.filter (activeMatch now userId))

/-- The `update is_active = false where id = sid` write. -/
def deactivateSession (sid : Nat) (sessions : List SessionRow) : List SessionRow :=
  sessions.map (fun r => if r.id = sid then { r with is_active := false } else r)

/-- Insertion step of the stable sort on received_at. -/
def insertByReceived (h : HeldRow) : List HeldRow → List HeldRow
  | [] => [h]
  | x :: xs =>
    if h.received_at < x.received_at then h :: x :: xs
    else x :: insertByReceived h xs

/-- Sort held rows by received_at ascending (order of equal keys is
unspecified at the database; this is one refinement of it). -/
def sortByReceived (l : List HeldRow) : List HeldRow :=
  l.foldr insertByReceived []

/-- The `select held_items where session_id = sid order by received_at`
read. -/
def heldForSession (sid : Nat) (held : List HeldRow) : List HeldRow :=
  sortByReceived (held.filter (fun h => h.session_id == sid))

/-- Model of `endFocusSession` from src/lib/focus.ts: look up the active session
(empty result if none), mark it inactive, then fetch its held items.
`heldReadFails` models the held-items select failing or returning null,
which the code silences with `heldItems or empty`. Returns the items and
the updated store. -/
def endFocusSession (now : Nat) (userId : String) (heldReadFails : Bool)
    (store : Store) : List HeldRow × Store :=
  match getActiveFocusSession now userId store with
  | none => ([], store)
  | some s =>
    let store2 : Store :=
      { store with sessions := deactivateSession s.id store.sessions }
    let items := if heldReadFails then [] else heldForSession s.id store2.held
    (items, store2)

/-- Model of `startFocusSession` from src/lib/focus.ts: first calls
`endFocusSession` for the user (discarding its returned items), then
inserts the new row with started_at = now and ends_at = now + durationMs.
`newId` models the database-generated id of the insert and `insertFails`
a failing insert, on which the code returns null. -/
def startFocusSession (now newId : Nat) (userId : String) (durationMs : Nat)
    (heldReadFails insertFails : Bool) (store : Store) :
    Option SessionRow × Store :=
  let afterEnd := (endFocusSession now userId heldReadFails store).2
  if insertFails then (none, afterEnd)
  else
    let row : SessionRow :=
      { id := newId, user_id := userId, started_at := now,
        ends_at := now + durationMs, is_active := true }
    (some row, { afterEnd with sessions := afterEnd.sessions ++ [row] })

theorem deactivateSession_inactive (sid : Nat) (sessions : List SessionRow) :
    ∀ r ∈ deactivateSession sid sessions, r.id = sid → r.is_active = false := by
  intro r hr hid
  obtain ⟨o, ho, rfl⟩ := List.mem_map.mp hr
  by_cases h : o.id = sid
  · simp [h]
  · rw [if_neg h] at hid ⊢
    exact absurd hid h

/-- C2: starting while a session is active deactivates the prior session
and drains it exactly as `endFocusSession` would, before the new row is
inserted: the new row is returned and stored still active, every stored
row with the prior id is inactive, held rows are untouched, and the
drained item list is the held-item list of the prior session. -/
theorem startFocusSession_drains_prior
    (now newId dur : Nat) (userId : String) (store : Store) (s : SessionRow)
    (hactive : getActiveFocusSession now userId store = some s)
    (hfresh : newId ≠ s.id) :
    (startFocusSession now newId userId dur false false store).1
        = some ⟨newId, userId, now, now + dur, true⟩ ∧
    (⟨newId, userId, now, now + dur, true⟩ : SessionRow)
        ∈ (startFocusSession now newId userId dur false false store).2.sessions ∧
    (∀ r ∈ (startFocusSession now newId userId dur false false store).2.sessions,
        r.id = s.id → r.is_active = false) ∧
    (startFocusSession now newId userId dur false false store).2.held = store.held ∧
    (endFocusSession now userId false store).1 = heldForSession s.id store.held := by
  have hstart : startFocusSession now newId userId dur false false store
      = (some ⟨newId, userId, now, now + dur, true⟩,
         { sessions := deactivateSession s.id store.sessions
             ++ [⟨newId, userId, now, now + dur, true⟩],
           held := store.held }) := by
    unfold startFocusSession endFocusSession
    rw [hactive]
    rfl
  have hend : (endFocusSession now userId false store).1
      = heldForSession s.id store.held := by
    unfold endFocusSession
    rw [hactive]
    rfl
  rw [hstart]
  refine ⟨rfl, ?_, ?_, rfl, hend⟩
  · exact List.mem_append.mpr (Or.inr (List.mem_singleton.mpr rfl))
  · intro r hr hid
    rcases List.mem_append.mp hr with hl | hrr
    · exact deactivateSession_inactive s.id store.sessions r hl hid
    · rw [List.mem_singleton.mp hrr] at hid
      exact absurd hid hfresh

/-- C10: when the held-items read fails, `endFocusSession` returns the
empty list although the session has already been marked inactive and its
held rows are still stored — they are never surfaced. -/
theorem endFocusSession_readFailure
    (now : Nat) (userId : String) (store : Store) (s : SessionRow)
    (hactive : getActiveFocusSession now userId store = some s) :
    (endFocusSession now userId true store).1 = [] ∧
    (∀ r ∈ (endFocusSession now userId true store).2.sessions,
        r.id = s.id → r.is_active = false) ∧
    (endFocusSession now userId true store).2.held = store.held := by
  unfold endFocusSession
  rw [hactive]
  exact ⟨rfl, fun r hr hid => deactivateSession_inactive s.id store.sessions r hr hid, rfl⟩

/-- A store holding one active session of user U1 with one held item,
used by the witnesses below. -/
def demoSession : SessionRow := ⟨1, "U1", 100, 200, true⟩

def demoHeld : HeldRow := ⟨10, 1, "C1", "general", "U2", "Ann", "hello", Urgency.low, 120⟩

def demoStore : Store := ⟨[demoSession], [demoHeld]⟩

/-- C2 witness: starting a new session at time 150 over the demo store. -/
theorem startFocusSession_drains_prior_witness :
    getActiveFocusSession 150 "U1" demoStore = some demoSession ∧
    (startFocusSession 150 2 "U1" 50 false false demoStore).1
      = some ⟨2, "U1", 150, 200, true⟩ ∧
    (∀ r ∈ (startFocusSession 150 2 "U1" 50 false false demoStore).2.sessions,
        r.id = demoSession.id → r.is_active = false) :=
  ⟨by decide,
   (startFocusSession_drains_prior 150 2 50 "U1" demoStore demoSession
      (by decide) (by decide)).1,
   (startFocusSession_drains_prior 150 2 50 "U1" demoStore demoSession
      (by decide) (by decide)).2.2.1⟩

/-- C10 witness: a failing held-items read over the demo store returns no
items although a held row of session 1 is stored. -/
theorem endFocusSession_readFailure_witness :
    (endFocusSession 150 "U1" true demoStore).1 = [] ∧
    (endFocusSession 150 "U1" true demoStore).2.held = [demoHeld] ∧
    demoHeld.session_id = 1 :=
  ⟨(endFocusSession_readFailure 150 "U1" demoStore demoSession (by decide)).1,
   (endFocusSession_readFailure 150 "U1" demoStore demoSession (by decide)).2.2.trans rfl,
   by decide⟩

/-- The distinct user-facing responses of `handleFocusOn`; the rendered
response texts and the locale time formatting are transport and are not
modelled beyond the data each one carries. -/
inductive FocusOnResponse
  | alreadyActive (remainingMs : Nat)
  | invalidDuration (durationStr : String)
  | tooLong
  | startFailed
  | started (durationMs endsAt : Nat)
deriving DecidableEq, Repr

/-- Model of `handleFocusOn` from the slash-command route: report an existing
active session with its remaining time; otherwise default the duration
argument to "2h" (a missing or empty argument is falsy in JavaScript),
reject when `parseDuration` is null or zero (both falsy under
`if (!durationMs)`), reject when above the 8-hour cap, else start the
session. -/
def handleFocusOn (now newId : Nat) (userId : String)
    (duration : Option String) (heldReadFails insertFails : Bool)
    (store : Store) : FocusOnResponse × Store :=
  match getActiveFocusSession now userId store with
  | some existingSession =>
    (.alreadyActive (existingSession.ends_at - now), store)
  | none =>
    let durationStr :=
      match duration with
      | none => "2h"
      | some d => if d = "" then "2h" else d
    match parseDuration durationStr with
    | none => (.invalidDuration durationStr, store)
    | some ms =>
      if ms = 0 then (.invalidDuration durationStr, store)
      else if ms > 8 * 60 * 60 * 1000 then (.tooLong, store)
      else
        match startFocusSession now newId userId ms heldReadFails insertFails store with
        | (none, store2) => (.startFailed, store2)
        | (some session, store2) => (.started ms session.ends_at, store2)

/-- C7: with no active session a missing duration argument defaults to 2
hours; an unparseable argument or one above 8 hours is rejected with the
store untouched; with an active session the command is a no-op reporting
the remaining time. -/
theorem handleFocusOn_policy (now newId : Nat) (userId : String) (store : Store) :
    (getActiveFocusSession now userId store = none →
      handleFocusOn now newId userId none false false store
        = (.started 7200000 (now + 7200000),
           (startFocusSession now newId userId 7200000 false false store).2)) ∧
    (∀ d, getActiveFocusSession now userId store = none → parseDuration d = none →
      d ≠ "" →
      handleFocusOn now newId userId (some d) false false store
        = (.invalidDuration d, store)) ∧
    (∀ d ms, getActiveFocusSession now userId store = none →
      parseDuration d = some ms → ms > 8 * 60 * 60 * 1000 → d ≠ "" →
      handleFocusOn now newId userId (some d) false false store = (.tooLong, store)) ∧
    (∀ ex, getActiveFocusSession now userId store = some ex →
      ∀ dopt, handleFocusOn now newId userId dopt false false store
        = (.alreadyActive (ex.ends_at - now), store)) := by
  refine ⟨?_, ?_, ?_, ?_⟩
  · intro hnone
    unfold handleFocusOn
    rw [hnone]
    have h2h : parseDuration "2h" = some 7200000 := by decide
    simp only [h2h]
    norm_num
    unfold startFocusSession
    rfl
  · intro d hnone hparse hne
    unfold handleFocusOn
    rw [hnone]
    simp only [hne, if_neg, ite_false, hparse]
  · intro d ms hnone hparse hbig hne
    unfold handleFocusOn
    rw [hnone]
    simp only [hne, if_neg, ite_false, hparse]
    have hms : ¬ ms = 0 := by omega
    simp [hms, hbig]
  · intro ex hsome dopt
    unfold handleFocusOn
    rw [hsome]

/-- C7 witness: over the demo store at a time past the session end, the
default duration path, the invalid duration "2x", the over-cap duration
"9h", and the already-active path at time 150. -/
theorem handleFocusOn_policy_witness :
    handleFocusOn 300 2 "U1" none false false demoStore
      = (.started 7200000 7200300,
         (startFocusSession 300 2 "U1" 7200000 false false demoStore).2) ∧
    handleFocusOn 300 2 "U1" (some "2x") false false demoStore
      = (.invalidDuration "2x", demoStore) ∧
    handleFocusOn 300 2 "U1" (some "9h") false false demoStore
      = (.tooLong, demoStore) ∧
    handleFocusOn 150 2 "U1" (some "1h") false false demoStore
      = (.alreadyActive 50, demoStore) :=
  ⟨(handleFocusOn_policy 300 2 "U1" demoStore).1 (by decide),
   (handleFocusOn_policy 300 2 "U1" demoStore).2.1 "2x" (by decide) (by decide) (by decide),
   (handleFocusOn_policy 300 2 "U1" demoStore).2.2.1 "9h" 32400000 (by decide) (by decide)
     (by decide) (by decide),
   (handleFocusOn_policy 150 2 "U1" demoStore).2.2.2 demoSession (by decide) (some "1h")⟩

/-- Model of `getUrgencyEmoji` from src/lib/focus.ts; the default branch of the
switch yields the green emoji, which with the closed `Urgency` type is
the low case. -/
def getUrgencyEmoji : Urgency → String
  | .urgent => "🔴"
  | .high => "🟠"
  | .medium => "🟡"
  | .low => "🟢"

/-- The grouping key `item.channel_name or item.channel_id` (an empty
name is falsy in JavaScript). -/
def channelKey (item : HeldRow) : String :=
  if item.channel_name = "" then item.channel_id else item.channel_name

/-- Append an item to its channel group, keeping first-seen group order
and chronological order inside a group, as pushing onto the keyed record
does in the source. -/
def addToGroups : List (String × List HeldRow) → String → HeldRow →
    List (String × List HeldRow)
  | [], key, item => [(key, [item])]
  | (k, l) :: rest, key, item =>
    if k = key then (k, l ++ [item]) :: rest
    else (k, l) :: addToGroups rest key item

/-- The `byChannel` record of `sendBatchSummary` as an ordered
association list. -/
def groupByChannel (items : List HeldRow) : List (String × List HeldRow) :=
  items.foldl (fun g item => addToGroups g (channelKey item) item) []

/-- The 80-character preview with ellipsis marker. -/
def previewText (t : String) : String :=
  if t.data.length > 80 then String.mk (t.data.take 80) ++ "..." else t

/-- One rendered held-item line. -/
def itemLine (item : HeldRow) : String :=
  "  " ++ getUrgencyEmoji item.urgency ++ " *" ++ item.sender_name ++ "*: "
    ++ previewText item.message_text

/-- The lines rendered for one channel group: header with count, up to 5
item lines, an and-N-more line when the group exceeds 5, and a blank. -/
def channelLines (channel : String) (items : List HeldRow) : List String :=
  ("*#" ++ channel ++ "* (" ++ toString items.length ++ "):")
    :: ((items.take 5).map itemLine
      ++ (if items.length > 5 then
            ["  _...and " ++ toString (items.length - 5) ++ " more_"]
          else [])
      ++ [""])

/-- The fixed header lines with the total count. -/
def summaryHeader (n : Nat) : List String :=
  ["🎉 *Focus session complete!*", "",
   "📬 *" ++ toString n ++ " message" ++ (if n = 1 then "" else "s") ++ " held:*",
   ""]

/-- The `lines` array of `sendBatchSummary` for nonempty input. -/
def summaryLines (items : List HeldRow) : List String :=
  summaryHeader items.length
    ++ (List.map (fun g => channelLines g.1 g.2) (groupByChannel items)).flatten

/-- Model of `sendBatchSummary` from src/lib/focus.ts, as the text it passes to
the DM capability: the fixed celebratory text for zero held items, the
joined grouped digest otherwise. -/
def sendBatchSummary (items : List HeldRow) : String :=
  if items.length = 0 then
    "🎉 *Focus session complete!*\n\nNo messages were held during your session."
  else String.intercalate "\n" (summaryLines items)

theorem strAppend_assoc (a b c : String) : a ++ b ++ c = a ++ (b ++ c) := by
  apply String.ext
  simp [String.data_append, List.append_assoc]

theorem groupByChannel_uniform (k : String) :
    ∀ (items acc : List HeldRow), (∀ h ∈ items, channelKey h = k) →
      List.foldl (fun g item => addToGroups g (channelKey item) item)
        [(k, acc)] items = [(k, acc ++ items)] := by
  intro items
  induction items with
  | nil => intro acc _; simp
  | cons a t ih =>
    intro acc hall
    have ha : channelKey a = k := hall a (List.mem_cons_self a t)
    rw [List.foldl_cons,
      show addToGroups [(k, acc)] (channelKey a) a = [(k, acc ++ [a])] by
        simp [addToGroups, ha],
      ih (acc ++ [a]) (fun h hh => hall h (List.mem_cons_of_mem a hh))]
    simp

theorem groupByChannel_single (k : String) (items : List HeldRow)
    (hne : items ≠ []) (hall : ∀ h ∈ items, channelKey h = k) :
    groupByChannel items = [(k, items)] := by
  cases items with
  | nil => exact absurd rfl hne
  | cons a t =>
    have ha : channelKey a = k := hall a (List.mem_cons_self a t)
    unfold groupByChannel
    rw [List.foldl_cons,
      show addToGroups [] (channelKey a) a = [(k, [a])] by simp [addToGroups, ha],
      groupByChannel_uniform k t [a] (fun h hh => hall h (List.mem_cons_of_mem a hh))]
    simp

/-- C8: for 7 held items from a single channel the digest is the header
followed by the channel line, exactly the first 5 item lines, the
"...and 2 more" line, and a blank; for zero held items the fixed
no-messages text is sent. -/
theorem sendBatchSummary_truncation (k : String) (items : List HeldRow)
    (hlen : items.length = 7) (hall : ∀ h ∈ items, channelKey h = k) :
    summaryLines items
      = summaryHeader 7 ++ ["*#" ++ k ++ "* (7):"]
        ++ (items.take 5).map itemLine ++ ["  _...and 2 more_", ""] ∧
    ((items.take 5).map itemLine).length = 5 ∧
    sendBatchSummary []
      = "🎉 *Focus session complete!*\n\nNo messages were held during your session." := by
  have hne : items ≠ [] := by
    intro h
    rw [h] at hlen
    simp at hlen
  have hg := groupByChannel_single k items hne hall
  refine ⟨?_, ?_, rfl⟩
  · unfold summaryLines
    rw [hg]
    simp only [List.map_cons, List.map_nil, List.flatten]
    unfold channelLines
    rw [hlen]
    have hmore : "  _...and " ++ toString (7 - 5) ++ " more_" = "  _...and 2 more_" := by
      decide
    rw [hmore]
    have h7 : toString (7 : Nat) = "7" := by decide
    have hseg : "* (" ++ ("7" ++ "):") = "* (7):" := by decide
    simp [h7, strAppend_assoc, hseg]
  · rw [List.length_map, List.length_take, hlen]
    decide

/-- Seven held items in channel general, for the C8 witness. -/
def demoItems7 : List HeldRow :=
  (List.range 7).map (fun i =>
    ⟨20 + i, 1, "C1", "general", "U2", "Ann", "msg " ++ toString i, Urgency.low, 120 + i⟩)

/-- C8 witness: the digest of the seven demo items. -/
theorem sendBatchSummary_truncation_witness :
    demoItems7.length = 7 ∧
    summaryLines demoItems7
      = summaryHeader 7 ++ ["*#general* (7):"]
        ++ (demoItems7.take 5).map itemLine ++ ["  _...and 2 more_", ""] ∧
    sendBatchSummary []
      = "🎉 *Focus session complete!*\n\nNo messages were held during your session." := by
  have h := sendBatchSummary_truncation "general" demoItems7 (by decide)
    (by decide)
  exact ⟨by decide, h.1, h.2.2⟩

/-- C1: on every path of `classifyMessage` — oracle success, unconfigured
key, or oracle failure — the returned `shouldInterrupt` equals the locally
recomputed `urgency = urgent`; in particular the flag carried by the
oracle response is overwritten. -/
theorem classifyMessage_shouldInterrupt_recomputed
    (messageText : String) (keyConfigured : Bool) (oracle : OracleOutcome) :
    (classifyMessage messageText keyConfigured oracle).shouldInterrupt
      = decide ((classifyMessage messageText keyConfigured oracle).urgency = Urgency.urgent) := by
  unfold classifyMessage
  cases keyConfigured with
  | false =>
    by_cases h : hasUrgentKeyword messageText <;> simp [h]
  | true =>
    cases oracle with
    | success r => simp
    | thrown e => by_cases h : hasUrgentKeyword messageText <;> simp [h]
    | nonText => by_cases h : hasUrgentKeyword messageText <;> simp [h]
    | badJson raw => by_cases h : hasUrgentKeyword messageText <;> simp [h]

/-- C3 counterexample: on the keyword path with no oracle configured the
reason string is "Contains urgent keywords" with a capital C, so it is not
exactly the lowercase string "contains urgent keywords" stated by the
claim. Input: message "asap", key unconfigured. -/
theorem classifyMessage_reason_not_lowercase :
    hasUrgentKeyword "asap" = true ∧
    (classifyMessage "asap" false (OracleOutcome.thrown "")).urgency = Urgency.urgent ∧
    (classifyMessage "asap" false (OracleOutcome.thrown "")).reason
      ≠ "contains urgent keywords" := by
  refine ⟨by decide, by decide, by decide⟩

/-- C3 amended: with no oracle configured, a message whose lowercased text
contains an urgent keyword is classified urgency=urgent,
shouldInterrupt=true, with reason exactly "Contains urgent keywords"
(capital C); a message with no keyword match is classified urgency=low,
shouldInterrupt=false. -/
theorem classifyMessage_unconfigured_spec
    (messageText : String) (oracle : OracleOutcome) :
    (hasUrgentKeyword messageText = true →
      classifyMessage messageText false oracle
        = ⟨Urgency.urgent, "Contains urgent keywords", true⟩) ∧
    (hasUrgentKeyword messageText = false →
      classifyMessage messageText false oracle
        = ⟨Urgency.low, "Default classification (no AI key configured)", false⟩) := by
  constructor
  · intro h
    simp [classifyMessage, h]
  · intro h
    simp [classifyMessage, h]

/-- C3 witness at concrete inputs on both branches. -/
theorem classifyMessage_unconfigured_spec_witness :
    classifyMessage "please reply ASAP" false (OracleOutcome.nonText)
      = ⟨Urgency.urgent, "Contains urgent keywords", true⟩ ∧
    classifyMessage "lunch later?" false (OracleOutcome.nonText)
      = ⟨Urgency.low, "Default classification (no AI key configured)", false⟩ :=
  ⟨(classifyMessage_unconfigured_spec "please reply ASAP" OracleOutcome.nonText).1 (by decide),
   (classifyMessage_unconfigured_spec "lunch later?" OracleOutcome.nonText).2 (by decide)⟩

/-- C4: every failing oracle outcome (thrown call, non-text content block,
unparseable JSON) is absorbed: the result is one of the two local
fallbacks, independent of the error value, and in particular a message
with no keyword match yields urgency=medium with shouldInterrupt=false. -/
theorem classifyMessage_failure_fallback
    (messageText : String) (oracle : OracleOutcome)
    (hfail : oracle.isFailure = true) :
    classifyMessage messageText true oracle
      = (if hasUrgentKeyword messageText then
          ⟨Urgency.urgent, "Contains urgent keywords (AI classification failed)", true⟩
        else
          ⟨Urgency.medium, "Default classification (AI classification failed)", false⟩) := by
  cases oracle with
  | success r => simp [OracleOutcome.isFailure] at hfail
  | thrown e =>
    by_cases h : hasUrgentKeyword messageText <;> simp [classifyMessage, h]
  | nonText =>
    by_cases h : hasUrgentKeyword messageText <;> simp [classifyMessage, h]
  | badJson raw =>
    by_cases h : hasUrgentKeyword messageText <;> simp [classifyMessage, h]

/-- C9: the keyword fallback is substring containment on the lowercased
message, not whole-word membership — any message whose lowercased text
contains a keyword as a substring (also inside a longer word) is
classified urgent with shouldInterrupt=true on both fallback paths. -/
theorem classifyMessage_keyword_substring
    (messageText k : String) (oracle : OracleOutcome) (e : String)
    (hk : k ∈ urgentKeywords)
    (hsub : containsSub k.data (lowerStr messageText) = true) :
    hasUrgentKeyword messageText = true ∧
    classifyMessage messageText false oracle
      = ⟨Urgency.urgent, "Contains urgent keywords", true⟩ ∧
    classifyMessage messageText true (OracleOutcome.thrown e)
      = ⟨Urgency.urgent, "Contains urgent keywords (AI classification failed)", true⟩ := by
  have hkw : hasUrgentKeyword messageText = true := by
    unfold hasUrgentKeyword
    rw [List.any_eq_true]
    exact ⟨k, hk, hsub⟩
  refine ⟨hkw, ?_, ?_⟩
  · simp [classifyMessage, hkw]
  · simp [classifyMessage, hkw]

/-- C9 witness: "down" occurs inside "download", so the fallback marks
the message urgent even though no keyword occurs as a whole word. -/
theorem classifyMessage_keyword_substring_witness :
    "down" ∈ urgentKeywords ∧
    containsSub "down".data (lowerStr "The download finished") = true ∧
    classifyMessage "The download finished" false (OracleOutcome.nonText)
      = ⟨Urgency.urgent, "Contains urgent keywords", true⟩ :=
  ⟨by decide, by decide,
   (classifyMessage_keyword_substring "The download finished" "down"
      OracleOutcome.nonText "" (by decide) (by decide)).2.1⟩

/-- C4 witness: a thrown oracle on a message with no urgent keyword yields
the medium-urgency fallback. -/
theorem classifyMessage_failure_fallback_witness :
    (OracleOutcome.thrown "timeout").isFailure = true ∧
    classifyMessage "code review when you get a chance" true (OracleOutcome.thrown "timeout")
      = ⟨Urgency.medium, "Default classification (AI classification failed)", false⟩ :=
  ⟨by decide, by
    have h := classifyMessage_failure_fallback "code review when you get a chance"
      (OracleOutcome.thrown "timeout") (by decide)
    rw [h]
    decide⟩
